import Mathlib

set_option maxHeartbeats 1000000

namespace Sudoku

/-- A cell of the grid: `none` models the Python empty string `''`
(a blank square), `some ch` models a single uppercase letter. -/
abbrev Cell := Option Char

/-- The alphabet constant `CHARS = 'ABCDEFGHIJKLMNOPQRSTUVWXYZ'` of the source. -/
def CHARS : List Char :=
  ['A','B','C','D','E','F','G','H','I','J','K','L','M',
   'N','O','P','Q','R','S','T','U','V','W','X','Y','Z']

/-- The digit constant `NUMBERS = '1234567890'` of the source. -/
def NUMBERS : List Char := ['1','2','3','4','5','6','7','8','9','0']

/-- The Python slice `CHARS[:n]`: the first `n` letters of the alphabet. -/
def charsTake (n : Nat) : List Char := CHARS.take n

/-- A Sudoku puzzle state: wraps the `_grid` attribute, a list of rows.
The `_n` attribute of the source is `len(grid)` and is recovered as
`SudokuPuzzle.n`. -/
structure SudokuPuzzle where
  grid : List (List Cell)
deriving DecidableEq

/-- Model of `self._n = len(grid)`. -/
def SudokuPuzzle.n (s : SudokuPuzzle) : Nat := s.grid.length

/-- Floor square root: the first `k` with `(k+1)^2 > x`.  This equals
Python's `int(sqrt(x))` on the board sizes the data model admits. -/
def intSqrt (x : Nat) : Nat :=
  (List.range (x + 1)).findIdx fun k => decide (x < (k + 1) * (k + 1))

/-- Model of `int(sqrt(self._n))`: the sub-square edge length. -/
def SudokuPuzzle.m (s : SudokuPuzzle) : Nat := intSqrt s.n

/-- Access `self._grid[r][c]` (defaulting to blank out of range; the source
assumes a well-formed n-by-n grid as a precondition). -/
def SudokuPuzzle.cell (s : SudokuPuzzle) (r c : Nat) : Cell :=
  (s.grid.getD r []).getD c none

/-- Well-formedness of the grid assumed by the source's precondition
("<grid> is a valid Sudoku grid"): every row has length `n`. -/
def WF (s : SudokuPuzzle) : Prop := ∀ row ∈ s.grid, row.length = s.n

instance (s : SudokuPuzzle) : Decidable (WF s) := by
  unfold WF
  infer_instance

/-- Comparison on cells matching Python's `<` on the cell strings:
the empty string sorts before every single-letter string, and letters
compare by code point. Used to model Python's `sorted`. -/
def cellLe : Cell → Cell → Bool
  | none, _ => true
  | some _, none => false
  | some a, some b => a ≤ b

/-- The order `cellLe` as a decidable relation, for `List.insertionSort`. -/
def cellRel : Cell → Cell → Prop := fun a b => cellLe a b = true

instance cellRel.decRel : DecidableRel cellRel := fun a b => instDecidableEqBool (cellLe a b) true

/-- The list `list(CHARS[:self._n])` as cells: the sorted comparison target of
`is_solved`. -/
def SudokuPuzzle.target (s : SudokuPuzzle) : List Cell :=
  (charsTake s.n).map some

/-- Model of Python `range(0, n, m)` for `m ≥ 1`: the multiples of `m` below `n`. -/
def rangeStep (n m : Nat) : List Nat :=
  (List.range n).filter (fun x => x % m == 0)

/-- The sub-square item list of `is_solved`:
`[grid[x+i][y+j] for i in range(m) for j in range(m)]`. -/
def SudokuPuzzle.subItems (s : SudokuPuzzle) (x y : Nat) : List Cell :=
  (List.range s.m).flatMap fun i =>
    (List.range s.m).map fun j => s.cell (x + i) (y + j)

/-- Model of `is_solved`, translated clause by clause from the source:
an empty-cell scan, then `sorted(row) == list(CHARS[:n])` for every row,
every column, and every sub-square.  Python's `sorted` is modelled by
insertion sort with the string order `cellLe` (any correct sort computes
the same list). -/
def SudokuPuzzle.is_solved (s : SudokuPuzzle) : Bool :=
  -- Check for empty cells: `if '' in row: return False`
  if s.grid.any (fun row => row.contains none) then false
  -- Check rows
  else if !(s.grid.all fun row => List.insertionSort cellRel row == s.target) then false
  -- Check cols: `sorted([row[i] for row in self._grid])`
  else if !((List.range s.n).all fun i =>
      List.insertionSort cellRel (s.grid.map fun row => row.getD i none) == s.target)
    then false
  -- Check all subsquares, corners from `range(0, n, m)`
  else if !((rangeStep s.n s.m).all fun x =>
      (rangeStep s.n s.m).all fun y =>
        List.insertionSort cellRel (s.subItems x y) == s.target) then false
  else true

/-- One step of building `lst_impossible`: skip the empty string, skip
letters already collected, otherwise append at the end. -/
def addImp (acc : List Char) (c : Cell) : List Char :=
  match c with
  | none => acc
  | some ch => if ch ∈ acc then acc else acc ++ [ch]

/-- Row `r` of the grid, as scanned by `for char in self._grid[row_index]`. -/
def SudokuPuzzle.rowList (s : SudokuPuzzle) (r : Nat) : List Cell :=
  s.grid.getD r []

/-- Column `c` of the grid, as scanned by
`for row in self._grid: ... row[col_index]`. -/
def SudokuPuzzle.colList (s : SudokuPuzzle) (c : Nat) : List Cell :=
  s.grid.map fun row => row.getD c none

/-- The sub-square containing `(r, c)`, as scanned by `_possible_letters`:
top-left corner `(int(r/m)*m, int(c/m)*m)`, then `m` rows of `m` cells. -/
def SudokuPuzzle.blockList (s : SudokuPuzzle) (r c : Nat) : List Cell :=
  (List.range s.m).flatMap fun i =>
    (List.range s.m).map fun j => s.cell (r / s.m * s.m + i) (c / s.m * s.m + j)

/-- Model of `_possible_letters`: collect `lst_impossible` by scanning the row, the
column, then the sub-square, and keep the letters of `CHARS[:n]` not
collected. -/
def SudokuPuzzle.possible_letters (s : SudokuPuzzle) (r c : Nat) : List Char :=
  let imp1 := (s.rowList r).foldl addImp []
  let imp2 := (s.colList c).foldl addImp imp1
  let imp3 := (s.blockList r c).foldl addImp imp2
  (charsTake s.n).filter (fun ch => !(imp3.contains ch))

/-- The first-empty-cell search of `extensions`: the first row containing
`''` (via its index), paired with `row.index('')` inside that row. -/
def SudokuPuzzle.firstBlank (s : SudokuPuzzle) : Option (Nat × Nat) :=
  match s.grid.findIdx? (fun row => row.contains none) with
  | none => none
  | some i => some (i, (s.grid.getD i []).indexOf none)

/-- Model of `_extend`: a copy of the grid with cell `(r, c)` set to `letter`. -/
def SudokuPuzzle.extend (s : SudokuPuzzle) (letter : Char) (r c : Nat) :
    SudokuPuzzle :=
  ⟨s.grid.set r ((s.grid.getD r []).set c (some letter))⟩

/-- Model of `extensions`: no child when no cell is empty, else one child per
possible letter of the first empty cell, in the order `_possible_letters`
returns them. -/
def SudokuPuzzle.extensions (s : SudokuPuzzle) : List SudokuPuzzle :=
  match s.firstBlank with
  | none => []
  | some (r, c) => (s.possible_letters r c).map fun t => s.extend t r c

/-- Numeric value of a decimal digit character. -/
def digitVal (ch : Char) : Nat := ch.toNat - 48

/-- Python `int` on a string of decimal digits. -/
def decValue (ds : List Char) : Nat :=
  ds.foldl (fun acc d => acc * 10 + digitVal d) 0

/-- The row-parsing loop of `move`.  State: remaining characters, current
index `x`, the `found_number` flag, the accumulated `row` digits.  Returns
`(row, row_end)`; `row_end = 0` means the loop ran off the end without
breaking, exactly as in the source where `row_end` keeps its initial 0. -/
def parseRowAux : List Char → Nat → Bool → List Char → (List Char × Nat)
  | [], _, _, row => (row, 0)
  | ch :: rest, x, fn, row =>
    if fn then
      if NUMBERS.contains ch then parseRowAux rest (x + 1) fn (row ++ [ch])
      else (row, x)
    else parseRowAux rest (x + 1) (ch == '(') row

/-- The column-parsing loop of `move`, over `move[row_end:]`.  `prev` is
the previous character (`move[x-1]`; the loop starts at `row_end ≥ 1`).
Returns the accumulated `col` digits. -/
def parseColAux : List Char → Char → Bool → List Char → List Char
  | [], _, _, col => col
  | ch :: rest, prev, fn, col =>
    if fn then
      if NUMBERS.contains ch then parseColAux rest ch fn (col ++ [ch])
      else col
    else parseColAux rest ch (ch == ' ' && prev == ',') col

/-- The row parse of a description: the digit string the row loop of
`move` extracts (the characters of `row`), together with `row_end`.
This is exactly the call `move` makes. -/
def rowParse (mv : List Char) : List Char × Nat :=
  parseRowAux mv 0 false []

/-- The column parse of a description: the digit string the column loop
of `move` extracts from `move[row_end:]`.  This is exactly the call
`move` makes. -/
def colParse (mv : List Char) : List Char :=
  parseColAux (mv.drop (rowParse mv).2) (mv.getD ((rowParse mv).2 - 1) ' ')
    false []

/-- Model of `move`, on the character list of the description.  `none` models the
raised `ValueError`.  The checks appear in source order: length and final
symbol, no alphabet letter before the last character, row parse, column
parse, membership of the symbol in `_possible_letters`. -/
def SudokuPuzzle.moveL (s : SudokuPuzzle) (mv : List Char) :
    Option SudokuPuzzle :=
  if mv.length < 11 then none
  else if !((charsTake s.n).contains (mv.getLastD ' ')) then none
  else if mv.dropLast.any (fun ch => CHARS.contains ch) then none
  else
    let pr := parseRowAux mv 0 false []
    if pr.2 = 0 ∨ pr.1 = [] ∨ s.n ≤ decValue pr.1 then none
    else
      let colDs := parseColAux (mv.drop pr.2) (mv.getD (pr.2 - 1) ' ') false []
      if colDs = [] ∨ s.n ≤ decValue colDs then none
      else if !((s.possible_letters (decValue pr.1) (decValue colDs)).contains
          (mv.getLastD ' ')) then none
      else some (s.extend (mv.getLastD ' ') (decValue pr.1) (decValue colDs))

/-- Model of `move` on a string description. -/
def SudokuPuzzle.move (s : SudokuPuzzle) (mv : String) : Option SudokuPuzzle :=
  s.moveL mv.toList

/-- Decimal digit character, for Python's `str` on a natural number. -/
def digitChar : Nat → Char
  | 0 => '0' | 1 => '1' | 2 => '2' | 3 => '3' | 4 => '4'
  | 5 => '5' | 6 => '6' | 7 => '7' | 8 => '8' | _ => '9'

/-- Fuelled decimal printer. -/
def natStrAux : Nat → Nat → List Char
  | 0, _ => []
  | fuel + 1, x =>
    if x < 10 then [digitChar x]
    else natStrAux fuel (x / 10) ++ [digitChar (x % 10)]

/-- Python `str(x)` for a natural number: its decimal digits. -/
def natStr (x : Nat) : List Char := natStrAux (x + 1) x

/-- The move string `'(' + str(r) + ', ' + str(c) + ') -> ' + tail`
built by `puzzle_to_hint` (whose tail is the cell content, possibly
empty) and consumed by `move`. -/
def moveStr (r c : Nat) (tail : List Char) : List Char :=
  '(' :: (natStr r ++ [',', ' '] ++ natStr c ++ [')', ' ', '-', '>', ' '] ++ tail)

/-- Python's substring test `cellString in CHARS[:n]` on a cell string:
the empty string is a substring of everything, so a blank cell passes;
a letter passes iff it occurs among the first `n` letters. -/
def pyMem (c : Cell) (l : List Char) : Bool :=
  match c with
  | none => true
  | some ch => l.contains ch

/-- The characters a cell contributes when concatenated into a string. -/
def cellChars : Cell → List Char
  | none => []
  | some ch => [ch]

/-- Model of `puzzle_to_hint`: scan `x`, `y` over `range(len(self._grid))` and
return the hint string at the first cell that is blank in `self` and
whose cell string in `new_puzzle` passes Python's substring test against
`CHARS[:n]`; `none` models Python's implicit `None` when the loops
finish. -/
def SudokuPuzzle.puzzle_to_hint (s p : SudokuPuzzle) : Option (List Char) :=
  (List.range s.grid.length).findSome? fun x =>
    (List.range s.grid.length).findSome? fun y =>
      if s.cell x y == none && pyMem (p.cell x y) (charsTake s.n) then
        some (moveStr x y (cellChars (p.cell x y)))
      else none

/-! Shorthand cells for concrete 4-by-4 grids. -/

def cA : Cell := some 'A'

def cB : Cell := some 'B'

def cC : Cell := some 'C'

def cD : Cell := some 'D'

def bl : Cell := none

/-- The n=4 grid of the concrete scenario:
`[[A,B,C,D],[C,D,A,B],[B,A,'',''],[D,C,'','']]`. -/
def s9 : SudokuPuzzle :=
  ⟨[[cA,cB,cC,cD],[cC,cD,cA,cB],[cB,cA,bl,bl],[cD,cC,bl,bl]]⟩

/-- The fully-determined variant with only (3,3) blank. -/
def v9 : SudokuPuzzle :=
  ⟨[[cA,cB,cC,cD],[cC,cD,cA,cB],[cB,cA,cD,cC],[cD,cC,cB,bl]]⟩

/-! Order facts about `cellRel`, used to reason about the sorted
comparisons of `is_solved`. -/

instance : IsTotal Cell cellRel := by
  constructor
  intro a b
  cases a <;> cases b <;> simp [cellRel, cellLe]
  exact le_total _ _

instance : IsTrans Cell cellRel := by
  constructor
  intro a b c hab hbc
  cases a <;> cases b <;> cases c <;> simp [cellRel, cellLe] at *
  exact le_trans hab hbc

instance : IsAntisymm Cell cellRel := by
  constructor
  intro a b hab hba
  cases a <;> cases b <;> simp [cellRel, cellLe] at *
  exact le_antisymm hab hba

/-- Grid with cell (0,0) filled with 'B' and every other cell blank. -/
def s1c1 : SudokuPuzzle :=
  ⟨[[cB,bl,bl,bl],[bl,bl,bl,bl],[bl,bl,bl,bl],[bl,bl,bl,bl]]⟩

/-- Grid with cell (1,1) filled with 'B' and every other cell blank. -/
def s5c5 : SudokuPuzzle :=
  ⟨[[bl,bl,bl,bl],[bl,cB,bl,bl],[bl,bl,bl,bl],[bl,bl,bl,bl]]⟩

/-- A solved 4-by-4 grid, the input of the witness below. -/
def w2 : SudokuPuzzle :=
  ⟨[[cA,cB,cC,cD],[cC,cD,cA,cB],[cB,cA,cD,cC],[cD,cC,cB,cA]]⟩

/-- The grid of the `_possible_letters` doctest, with only (3,3) blank. -/
def w3 : SudokuPuzzle :=
  ⟨[[cA,cB,cC,cD],[cC,cD,cA,cB],[cB,cA,cD,cC],[cD,cC,cB,bl]]⟩

/-- The extensions-doctest grid, input of the witness below. -/
def w4 : SudokuPuzzle :=
  ⟨[[cA,cB,cC,cD],[cC,cD,cA,cB],[cB,cA,bl,bl],[cD,cC,bl,bl]]⟩

/-- The extensions-doctest grid again, input of the C6 witness. -/
def w6 : SudokuPuzzle :=
  ⟨[[cA,cB,cC,cD],[cC,cD,cA,cB],[cB,cA,bl,bl],[cD,cC,bl,bl]]⟩

/-- The doctest grid once more, input of the C7 witness. -/
def w7 : SudokuPuzzle :=
  ⟨[[cA,cB,cC,cD],[cC,cD,cA,cB],[cB,cA,bl,bl],[cD,cC,bl,bl]]⟩

/-- A 4-by-4 grid for the C8 witness. -/
def w8 : SudokuPuzzle :=
  ⟨[[cA,cB,cC,cD],[cC,cD,cA,cB],[cB,cA,bl,bl],[cD,cC,bl,bl]]⟩

/-- The doctest grid with first blank at (2,2), input of the C10
counterexample. -/
def s10 : SudokuPuzzle :=
  ⟨[[cA,cB,cC,cD],[cC,cD,cA,cB],[cB,cA,bl,bl],[cD,cC,bl,bl]]⟩

/-- The doctest grid again, input of the C10 witness. -/
def w10 : SudokuPuzzle :=
  ⟨[[cA,cB,cC,cD],[cC,cD,cA,cB],[cB,cA,bl,bl],[cD,cC,bl,bl]]⟩

/-- Claim C9: on the concrete 4-by-4 grid
`[[A,B,C,D],[C,D,A,B],[B,A,'',''],[D,C,'','']]`, `extensions` returns
exactly one child, whose cell (2,2) holds 'D' and whose cell (2,3) is
still blank; and on the fully-determined variant with only (3,3) blank,
`move "(3, 3) -> A"` returns a state on which `is_solved` is true. -/
theorem c9_concrete_scenario :
    s9.extensions.map (fun e => (e.cell 2 2, e.cell 2 3)) = [(some 'D', none)]
      ∧ (v9.move "(3, 3) -> A").map SudokuPuzzle.is_solved = some true := by
  decide

/-- Claim C1 (evaluation at the failing input): on the grid whose cell
(0,0) already holds 'B', `move "(0, 0) -> A"` does not fail: it succeeds
and overwrites the filled cell with 'A'.  The source's `move` never
checks that the target cell is blank — it only tests the symbol against
`_possible_letters` — so the claimed rejection of moves onto filled cells
does not happen. -/
theorem c1_move_overwrites_filled_cell :
    s1c1.cell 0 0 = some 'B' ∧
      s1c1.move "(0, 0) -> A" =
        some ⟨[[cA,bl,bl,bl],[bl,bl,bl,bl],[bl,bl,bl,bl],[bl,bl,bl,bl]]⟩ := by
  decide

/-- The comparison target `list(CHARS[:n])` is sorted. -/
lemma target_sorted (s : SudokuPuzzle) : List.Sorted cellRel s.target := by
  have hchars : List.Pairwise (fun a b : Char => a ≤ b) CHARS := by decide
  have htake : List.Pairwise (fun a b : Char => a ≤ b) (charsTake s.n) :=
    List.Pairwise.sublist (List.take_sublist _ _) hchars
  unfold SudokuPuzzle.target
  rw [List.Sorted, List.pairwise_map]
  exact htake.imp (fun h => by simpa [cellRel, cellLe])

/-- Comparison `sorted(l) == t` succeeds exactly when `l` is a permutation of the
sorted list `t`. -/
lemma sort_eq_iff (l t : List Cell) (ht : List.Sorted cellRel t) :
    (List.insertionSort cellRel l == t) = true ↔ l.Perm t := by
  rw [beq_iff_eq]
  constructor
  · intro h
    exact (List.perm_insertionSort cellRel l).symm.trans (h ▸ List.Perm.refl t)
  · intro h
    exact List.eq_of_perm_of_sorted ((List.perm_insertionSort cellRel l).trans h)
      (List.sorted_insertionSort cellRel l) ht

/-- Unfolding of `is_solved` into its four checks. -/
lemma is_solved_eq_true_iff (s : SudokuPuzzle) :
    s.is_solved = true ↔
      (s.grid.any fun row => row.contains none) = false ∧
      (s.grid.all fun row => List.insertionSort cellRel row == s.target) = true ∧
      ((List.range s.n).all fun i =>
        List.insertionSort cellRel (s.grid.map fun row => row.getD i none)
          == s.target) = true ∧
      ((rangeStep s.n s.m).all fun x => (rangeStep s.n s.m).all fun y =>
        List.insertionSort cellRel (s.subItems x y) == s.target) = true := by
  simp only [SudokuPuzzle.is_solved]
  cases h1 : s.grid.any fun row => row.contains none <;>
    cases h2 : s.grid.all fun row => List.insertionSort cellRel row == s.target <;>
      cases h3 : (List.range s.n).all fun i =>
          List.insertionSort cellRel (s.grid.map fun row => row.getD i none)
            == s.target <;>
        cases h4 : (rangeStep s.n s.m).all fun x =>
            (rangeStep s.n s.m).all fun y =>
              List.insertionSort cellRel (s.subItems x y) == s.target <;>
          simp

/-- Under well-formedness, a row picked by index equals the list access. -/
lemma rowList_eq_getElem (s : SudokuPuzzle) (r : Nat) (hr : r < s.grid.length) :
    s.rowList r = s.grid[r] := by
  rw [SudokuPuzzle.rowList, List.getD_eq_getElem?_getD, List.getElem?_eq_getElem hr,
    Option.getD_some]

/-- Membership in the grid is row access at an index below `n`. -/
lemma mem_grid_iff (s : SudokuPuzzle) (row : List Cell) :
    row ∈ s.grid ↔ ∃ r, ∃ _ : r < s.n, s.rowList r = row := by
  rw [List.mem_iff_getElem]
  constructor
  · rintro ⟨r, hr, h⟩
    exact ⟨r, hr, by rw [rowList_eq_getElem s r hr, h]⟩
  · rintro ⟨r, hr, h⟩
    exact ⟨r, hr, by rw [← rowList_eq_getElem s r hr, h]⟩

/-- The no-blank scan of `is_solved`, as a statement about cell accesses. -/
lemma no_blank_iff (s : SudokuPuzzle) (hWF : WF s) :
    (s.grid.any fun row => row.contains none) = false ↔
      ∀ r < s.n, ∀ c < s.n, s.cell r c ≠ none := by
  rw [List.any_eq_false]
  constructor
  · intro h r hr c hc hcell
    have hrow : s.rowList r ∈ s.grid := (mem_grid_iff s _).mpr ⟨r, hr, rfl⟩
    have := h _ hrow
    exact this (List.elem_iff.mpr (by
      have hlen : (s.rowList r).length = s.n := hWF _ hrow
      have hc' : c < (s.rowList r).length := by rw [hlen]; exact hc
      have hcell' : (s.rowList r).getD c none = none := hcell
      rw [List.getD_eq_getElem?_getD, List.getElem?_eq_getElem hc',
        Option.getD_some] at hcell'
      rw [← hcell']
      exact List.getElem_mem _))
  · intro h row hrow
    intro hcontains
    obtain ⟨c, hc, hcell⟩ := List.mem_iff_getElem.mp (List.elem_iff.mp hcontains)
    obtain ⟨r, hr, hrow'⟩ := (mem_grid_iff s row).mp hrow
    have hlen : row.length = s.n := hWF _ hrow
    refine h r hr c (by rw [← hlen]; exact hc) ?_
    have : (s.rowList r).getD c none = none := by
      rw [hrow', List.getD_eq_getElem?_getD, List.getElem?_eq_getElem hc,
        Option.getD_some, hcell]
    exact this

/-- The row check of `is_solved`, as a permutation statement. -/
lemma rows_check_iff (s : SudokuPuzzle) :
    (s.grid.all fun row => List.insertionSort cellRel row == s.target) = true ↔
      ∀ r < s.n, (s.rowList r).Perm s.target := by
  rw [List.all_eq_true]
  constructor
  · intro h r hr
    exact (sort_eq_iff _ _ (target_sorted s)).mp
      (h _ ((mem_grid_iff s _).mpr ⟨r, hr, rfl⟩))
  · intro h row hrow
    obtain ⟨r, hr, hrow'⟩ := (mem_grid_iff s row).mp hrow
    exact (sort_eq_iff _ _ (target_sorted s)).mpr (hrow' ▸ h r hr)

/-- The column check of `is_solved`, as a permutation statement. -/
lemma cols_check_iff (s : SudokuPuzzle) :
    ((List.range s.n).all fun i =>
      List.insertionSort cellRel (s.grid.map fun row => row.getD i none)
        == s.target) = true ↔
      ∀ c < s.n, (s.colList c).Perm s.target := by
  rw [List.all_eq_true]
  constructor
  · intro h c hc
    exact (sort_eq_iff _ _ (target_sorted s)).mp (h _ (List.mem_range.mpr hc))
  · intro h i hi
    exact (sort_eq_iff _ _ (target_sorted s)).mpr (h i (List.mem_range.mp hi))

/-- Membership in `range(0, n, m)`. -/
lemma mem_rangeStep (n mm x : Nat) :
    x ∈ rangeStep n mm ↔ x < n ∧ x % mm = 0 := by
  rw [rangeStep, List.mem_filter, List.mem_range]
  simp

/-- The sub-square check of `is_solved`, as a permutation statement over
the `m * m` block corners, assuming the board size is a perfect square. -/
lemma blocks_check_iff (s : SudokuPuzzle) (hsq : s.m * s.m = s.n) :
    ((rangeStep s.n s.m).all fun x => (rangeStep s.n s.m).all fun y =>
      List.insertionSort cellRel (s.subItems x y) == s.target) = true ↔
      ∀ bi < s.m, ∀ bj < s.m,
        (s.subItems (bi * s.m) (bj * s.m)).Perm s.target := by
  have hcorner : ∀ b < s.m, b * s.m ∈ rangeStep s.n s.m := by
    intro b hb
    rw [mem_rangeStep]
    refine ⟨?_, Nat.mul_mod_left b s.m⟩
    rw [← hsq]
    exact Nat.mul_lt_mul_of_lt_of_le hb (Nat.le_refl _) (Nat.lt_of_le_of_lt
      (Nat.zero_le b) hb)
  rw [List.all_eq_true]
  constructor
  · intro h bi hbi bj hbj
    have hx := h _ (hcorner bi hbi)
    rw [List.all_eq_true] at hx
    exact (sort_eq_iff _ _ (target_sorted s)).mp (hx _ (hcorner bj hbj))
  · intro h x hx
    rw [List.all_eq_true]
    intro y hy
    rw [mem_rangeStep] at hx hy
    have hm : 0 < s.m := by
      rcases Nat.eq_zero_or_pos s.m with h0 | h0
      · rw [h0] at hsq
        rw [← hsq] at hx
        exact absurd hx.1 (Nat.not_lt_zero x)
      · exact h0
    have hx' : x = x / s.m * s.m := (Nat.div_mul_cancel
      (Nat.dvd_of_mod_eq_zero hx.2)).symm
    have hy' : y = y / s.m * s.m := (Nat.div_mul_cancel
      (Nat.dvd_of_mod_eq_zero hy.2)).symm
    have hxb : x / s.m < s.m := by
      rw [Nat.div_lt_iff_lt_mul hm]
      rw [← hsq] at hx
      exact hx.1
    have hyb : y / s.m < s.m := by
      rw [Nat.div_lt_iff_lt_mul hm]
      rw [← hsq] at hy
      exact hy.1
    refine (sort_eq_iff _ _ (target_sorted s)).mpr ?_
    rw [hx', hy']
    exact h _ hxb _ hyb

/-- The square-root table for the admitted board sizes. -/
lemma m_sq_of_size (s : SudokuPuzzle)
    (hn : s.n = 4 ∨ s.n = 9 ∨ s.n = 16 ∨ s.n = 25) : s.m * s.m = s.n := by
  rcases hn with h | h | h | h <;> rw [SudokuPuzzle.m, h] <;> decide

/-- Claim C2: for every well-formed puzzle state of an admitted board
size, `is_solved` returns true iff no cell is blank, every row is a
permutation of the first `n` alphabet symbols, every column likewise,
and every one of the `m * m` sub-blocks likewise. -/
theorem c2_is_solved_iff (s : SudokuPuzzle) (hWF : WF s)
    (hn : s.n = 4 ∨ s.n = 9 ∨ s.n = 16 ∨ s.n = 25) :
    s.is_solved = true ↔
      ((∀ r < s.n, ∀ c < s.n, s.cell r c ≠ none) ∧
       (∀ r < s.n, (s.rowList r).Perm s.target) ∧
       (∀ c < s.n, (s.colList c).Perm s.target) ∧
       (∀ bi < s.m, ∀ bj < s.m,
         (s.subItems (bi * s.m) (bj * s.m)).Perm s.target)) := by
  rw [is_solved_eq_true_iff, no_blank_iff s hWF, rows_check_iff, cols_check_iff,
    blocks_check_iff s (m_sq_of_size s hn)]

/-- Witness for claim C2 at a concrete solved 4-by-4 grid. -/
theorem c2_is_solved_iff_witness : w2.is_solved = true :=
  (c2_is_solved_iff w2 (by decide) (by decide)).mpr (by decide)

/-- Membership in the accumulated `lst_impossible`: a letter is collected
exactly when it was already there or occurs (non-blank) in the scanned
cells. -/
lemma mem_foldl_addImp (l : List Cell) :
    ∀ (acc : List Char) (ch : Char),
      ch ∈ l.foldl addImp acc ↔ ch ∈ acc ∨ some ch ∈ l := by
  induction l with
  | nil => simp
  | cons hd tl ih =>
    intro acc ch
    rw [List.foldl_cons, ih]
    cases hd with
    | none => simp [addImp]
    | some d =>
      by_cases hd : d ∈ acc
      · simp only [addImp, if_pos hd, List.mem_cons]
        constructor
        · rintro (h | h)
          · exact Or.inl h
          · exact Or.inr (Or.inr h)
        · rintro (h | h | h)
          · exact Or.inl h
          · exact Or.inl (by rw [Option.some_inj] at h; rw [h]; exact hd)
          · exact Or.inr h
      · simp only [addImp, if_neg hd, List.mem_append, List.mem_singleton,
          List.mem_cons, Option.some_inj]
        tauto

/-- Claim C3: for a (blank) cell `(r, c)` of a puzzle state,
`_possible_letters` returns exactly the first `n` alphabet symbols minus
every non-blank symbol occurring in row `r`, in column `c`, or in the
sub-block containing `(r, c)`, as a strictly ascending list. -/
theorem c3_possible_letters_spec (s : SudokuPuzzle) (r c : Nat)
    (hr : r < s.n) (hc : c < s.n) (hblank : s.cell r c = none) :
    List.Pairwise (· < ·) (s.possible_letters r c) ∧
      ∀ ch, ch ∈ s.possible_letters r c ↔
        ch ∈ charsTake s.n ∧
          ¬ (some ch ∈ s.rowList r ∨ some ch ∈ s.colList c ∨
            some ch ∈ s.blockList r c) := by
  constructor
  · have hchars : List.Pairwise (fun a b : Char => a < b) CHARS := by decide
    exact List.Pairwise.sublist
      ((List.filter_sublist _).trans (List.take_sublist _ _)) hchars
  · intro ch
    rw [SudokuPuzzle.possible_letters]
    simp only [List.mem_filter, Bool.not_eq_true', ← Bool.not_eq_true]
    constructor
    · rintro ⟨hmem, himp⟩
      refine ⟨hmem, ?_⟩
      intro hocc
      apply himp
      rw [List.elem_iff, mem_foldl_addImp, mem_foldl_addImp, mem_foldl_addImp]
      rcases hocc with h | h | h
      · exact Or.inl (Or.inl (Or.inr h))
      · exact Or.inl (Or.inr h)
      · exact Or.inr h
    · rintro ⟨hmem, hocc⟩
      refine ⟨hmem, ?_⟩
      intro himp
      apply hocc
      rw [List.elem_iff, mem_foldl_addImp, mem_foldl_addImp, mem_foldl_addImp]
        at himp
      simp only [List.not_mem_nil, false_or] at himp
      tauto

/-- Witness for claim C3 at cell (3,3) of the doctest grid. -/
theorem c3_possible_letters_spec_witness :
    List.Pairwise (· < ·) (w3.possible_letters 3 3) ∧
      ∀ ch, ch ∈ w3.possible_letters 3 3 ↔
        ch ∈ charsTake w3.n ∧
          ¬ (some ch ∈ w3.rowList 3 ∨ some ch ∈ w3.colList 3 ∨
            some ch ∈ w3.blockList 3 3) :=
  c3_possible_letters_spec w3 3 3 (by decide) (by decide) (by decide)

/-- Cell access through list indexing, within bounds. -/
lemma cell_eq_getElem (s : SudokuPuzzle) {r c : Nat} (hr : r < s.grid.length)
    (hc : c < s.grid[r].length) : s.cell r c = s.grid[r][c] := by
  rw [SudokuPuzzle.cell, List.getD_eq_getElem?_getD s.grid r [],
    List.getElem?_eq_getElem hr, Option.getD_some, List.getD_eq_getElem?_getD,
    List.getElem?_eq_getElem hc, Option.getD_some]

/-- What `row.index(a)` pins down for a member `a`: the index is in
range, the element there is `a`, and every earlier element differs
from `a`. -/
lemma indexOf_getD {α : Type} [BEq α] [LawfulBEq α] (l : List α) (a d : α)
    (h : a ∈ l) :
    l.indexOf a < l.length ∧ l.getD (l.indexOf a) d = a ∧
      ∀ j < l.indexOf a, l.getD j d ≠ a := by
  induction l with
  | nil => exact absurd h (List.not_mem_nil a)
  | cons x xs ih =>
    rw [List.indexOf_cons]
    by_cases hx : x = a
    · have hbeq : (x == a) = true := beq_iff_eq.mpr hx
      rw [hbeq, cond_true]
      refine ⟨Nat.succ_pos _, hx, ?_⟩
      intro j hj
      exact absurd hj (Nat.not_lt_zero j)
    · have hbeq : (x == a) = false := by
        rw [beq_eq_false_iff_ne]
        exact hx
      rw [hbeq, cond_false]
      have hmem : a ∈ xs := by
        rcases List.mem_cons.mp h with h' | h'
        · exact absurd h'.symm hx
        · exact h'
      obtain ⟨ih1, ih2, ih3⟩ := ih hmem
      refine ⟨Nat.succ_lt_succ ih1, ?_, ?_⟩
      · rw [List.getD_cons_succ]
        exact ih2
      · intro j hj
        cases j with
        | zero =>
          rw [List.getD_cons_zero]
          exact hx
        | succ j' =>
          rw [List.getD_cons_succ]
          exact ih3 j' (Nat.lt_of_succ_lt_succ hj)

/-- The first-blank search succeeds on nothing exactly when no cell of a
well-formed grid is blank. -/
lemma firstBlank_eq_none_iff (s : SudokuPuzzle) (hWF : WF s) :
    s.firstBlank = none ↔ ∀ r < s.n, ∀ c < s.n, s.cell r c ≠ none := by
  rw [← no_blank_iff s hWF]
  rw [SudokuPuzzle.firstBlank]
  cases h : s.grid.findIdx? fun row => row.contains none with
  | none =>
    simp only [true_iff]
    rw [List.findIdx?_eq_none_iff] at h
    rw [List.any_eq_false]
    intro row hrow
    rw [h row hrow]
    exact Bool.false_ne_true
  | some i =>
    simp only [reduceCtorEq, false_iff]
    intro hany
    rw [List.findIdx?_eq_some_iff_getElem] at h
    obtain ⟨hi, hp, _⟩ := h
    rw [List.any_eq_false] at hany
    exact hany _ (List.getElem_mem hi) hp

/-- What a successful first-blank search pins down: the found cell is
in range and blank, every earlier row has no blank, and every earlier
cell of the found row is filled. -/
lemma firstBlank_spec (s : SudokuPuzzle) (r c : Nat)
    (h : s.firstBlank = some (r, c)) :
    r < s.grid.length ∧ c < (s.rowList r).length ∧ s.cell r c = none ∧
      (∀ j < r, none ∉ s.rowList j) ∧
      (∀ j < c, s.cell r j ≠ none) := by
  rw [SudokuPuzzle.firstBlank] at h
  cases hf : s.grid.findIdx? fun row => row.contains none with
  | none => rw [hf] at h; exact absurd h (by simp)
  | some i =>
    rw [hf] at h
    simp only [Option.some_inj, Prod.mk.injEq] at h
    obtain ⟨hir, hic⟩ := h
    have hir' : r = i := hir.symm
    subst hir'
    rw [List.findIdx?_eq_some_iff_getElem] at hf
    obtain ⟨hi, hp, hbefore⟩ := hf
    have hrl : s.rowList r = s.grid[r] := rowList_eq_getElem s r hi
    have hmem : none ∈ s.rowList r := by
      rw [hrl]
      exact List.elem_iff.mp hp
    obtain ⟨hidx1, hidx2, hidx3⟩ := indexOf_getD (s.rowList r) none none hmem
    have hic' : (s.rowList r).indexOf none = c := hic
    refine ⟨hi, by rw [← hic']; exact hidx1, ?_, ?_, ?_⟩
    · show (s.rowList r).getD c none = none
      rw [← hic']
      exact hidx2
    · intro j hjr hmem'
      have hjl : j < s.grid.length := Nat.lt_trans hjr hi
      have := hbefore j hjr
      rw [Bool.not_eq_true] at this
      rw [← Bool.not_eq_true] at this
      refine this (List.elem_iff.mpr ?_)
      rw [← rowList_eq_getElem s j hjl]
      exact hmem'
    · intro j hjc
      show (s.rowList r).getD j none ≠ none
      refine hidx3 j ?_
      rw [hic']
      exact hjc

/-- Claim C4: `extensions` returns the empty sequence when the state has
no blank cell; otherwise, with `(r, c)` the first blank cell in row-major
order, it returns exactly one child per symbol of the consistent-symbol
list of `(r, c)` (in that list's order), so its length is the size of
that list. -/
theorem c4_extensions_spec (s : SudokuPuzzle) (hWF : WF s) :
    (s.firstBlank = none ↔ ∀ r < s.n, ∀ c < s.n, s.cell r c ≠ none) ∧
      (s.firstBlank = none → s.extensions = []) ∧
      ∀ r c, s.firstBlank = some (r, c) →
        s.cell r c = none ∧
          (∀ r' c', r' < s.n → c' < s.n →
            (r' < r ∨ (r' = r ∧ c' < c)) → s.cell r' c' ≠ none) ∧
          s.extensions = (s.possible_letters r c).map (fun t => s.extend t r c) ∧
          s.extensions.length = (s.possible_letters r c).length := by
  refine ⟨firstBlank_eq_none_iff s hWF, ?_, ?_⟩
  · intro h
    rw [SudokuPuzzle.extensions, h]
  · intro r c h
    obtain ⟨hr, hc, hblank, hrows, hcols⟩ := firstBlank_spec s r c h
    have hext : s.extensions =
        (s.possible_letters r c).map (fun t => s.extend t r c) := by
      rw [SudokuPuzzle.extensions, h]
    refine ⟨hblank, ?_, hext, by rw [hext, List.length_map]⟩
    intro r' c' hr' hc' hbefore hcell
    have hrow' : r' < s.grid.length := hr'
    have hlen : (s.rowList r').length = s.n := by
      rw [rowList_eq_getElem s r' hrow']
      exact hWF _ (List.getElem_mem hrow')
    rcases hbefore with hlt | ⟨heq, hclt⟩
    · refine hrows r' hlt ?_
      have hc'' : c' < (s.rowList r').length := by rw [hlen]; exact hc'
      have hcell' : (s.rowList r').getD c' none = none := hcell
      rw [List.getD_eq_getElem?_getD, List.getElem?_eq_getElem hc'',
        Option.getD_some] at hcell'
      rw [← hcell']
      exact List.getElem_mem _
    · subst heq
      exact hcols c' hclt hcell

/-- Witness for claim C4 at the extensions-doctest grid, whose first
blank cell is (2,2). -/
theorem c4_extensions_spec_witness :
    w4.extensions = (w4.possible_letters 2 2).map (fun t => w4.extend t 2 2) :=
  ((c4_extensions_spec w4 (by decide)).2.2 2 2 (by decide)).2.2.1

/-- Digit facts about the decimal printer for indices below 25 (the
largest admitted board size): all characters are digits, the string is
nonempty, and `int` recovers the value. -/
lemma natStr_facts : ∀ r < 25,
    (natStr r).all (fun ch => NUMBERS.contains ch) = true ∧
      natStr r ≠ [] ∧ decValue (natStr r) = r := by
  decide

/-- Decimal digits are not uppercase letters. -/
lemma digits_not_upper : ∀ ch ∈ NUMBERS, CHARS.contains ch = false := by
  decide

/-- The row loop consumes a run of digits after the opening parenthesis
and breaks at the first non-digit, recording its index. -/
lemma parseRowAux_digits (ds : List Char)
    (hds : ∀ d ∈ ds, NUMBERS.contains d = true) :
    ∀ (b : Char), NUMBERS.contains b = false →
      ∀ (rest : List Char) (x : Nat) (row : List Char),
        parseRowAux (ds ++ b :: rest) x true row = (row ++ ds, x + ds.length) := by
  induction ds with
  | nil =>
    intro b hb rest x row
    have hb' : b ∉ NUMBERS := fun hmem =>
      Bool.false_ne_true (hb ▸ List.elem_iff.mpr hmem)
    rw [List.nil_append]
    simp [parseRowAux, hb']
  | cons d ds ih =>
    intro b hb rest x row
    have hd : NUMBERS.contains d = true := hds d (List.mem_cons_self d ds)
    have hd' : d ∈ NUMBERS := List.elem_iff.mp hd
    rw [List.cons_append]
    rw [show parseRowAux (d :: (ds ++ b :: rest)) x true row
        = parseRowAux (ds ++ b :: rest) (x + 1) true (row ++ [d]) by
      simp [parseRowAux, hd']]
    rw [ih (fun d' hd' => hds d' (List.mem_cons_of_mem d hd')) b hb rest (x + 1)
      (row ++ [d])]
    rw [List.append_assoc, List.singleton_append, List.length_cons]
    have harith : x + 1 + ds.length = x + (ds.length + 1) := by omega
    rw [harith]

/-- A description starting with `(`, then digits, then a non-digit:
the row loop returns the digits and breaks one past them. -/
lemma parseRowAux_open (ds : List Char)
    (hds : ∀ d ∈ ds, NUMBERS.contains d = true) (b : Char)
    (hb : NUMBERS.contains b = false) (rest : List Char) :
    parseRowAux ('(' :: (ds ++ b :: rest)) 0 false [] = (ds, 1 + ds.length) :=
  calc parseRowAux ('(' :: (ds ++ b :: rest)) 0 false []
      = parseRowAux (ds ++ b :: rest) 1 true [] := rfl
    _ = ([] ++ ds, 1 + ds.length) := parseRowAux_digits ds hds b hb rest 1 []
    _ = (ds, 1 + ds.length) := by rw [List.nil_append]

/-- The column loop consumes a run of digits and breaks at the first
non-digit. -/
lemma parseColAux_digits (cs : List Char)
    (hcs : ∀ d ∈ cs, NUMBERS.contains d = true) :
    ∀ (b : Char), NUMBERS.contains b = false →
      ∀ (rest : List Char) (prev : Char) (col : List Char),
        parseColAux (cs ++ b :: rest) prev true col = col ++ cs := by
  induction cs with
  | nil =>
    intro b hb rest prev col
    have hb' : b ∉ NUMBERS := fun hmem =>
      Bool.false_ne_true (hb ▸ List.elem_iff.mpr hmem)
    rw [List.nil_append]
    simp [parseColAux, hb']
  | cons d cs ih =>
    intro b hb rest prev col
    have hd : NUMBERS.contains d = true := hcs d (List.mem_cons_self d cs)
    have hd' : d ∈ NUMBERS := List.elem_iff.mp hd
    rw [List.cons_append]
    rw [show parseColAux (d :: (cs ++ b :: rest)) prev true col
        = parseColAux (cs ++ b :: rest) d true (col ++ [d]) by
      simp [parseColAux, hd']]
    rw [ih (fun d' hd' => hcs d' (List.mem_cons_of_mem d hd')) b hb rest d
      (col ++ [d])]
    rw [List.append_assoc, List.singleton_append]

/-- The column loop on the remainder `", C..."`: the comma leaves the
flag down, the space after the comma raises it, then the digits of the
column accumulate. -/
lemma parseColAux_start (cs : List Char)
    (hcs : ∀ d ∈ cs, NUMBERS.contains d = true) (b : Char)
    (hb : NUMBERS.contains b = false) (rest : List Char) (prev : Char) :
    parseColAux (',' :: ' ' :: (cs ++ b :: rest)) prev false [] = cs :=
  calc parseColAux (',' :: ' ' :: (cs ++ b :: rest)) prev false []
      = parseColAux (' ' :: (cs ++ b :: rest)) ',' false [] := rfl
    _ = parseColAux (cs ++ b :: rest) ' ' true [] := rfl
    _ = [] ++ cs := parseColAux_digits cs hcs b hb rest ' ' []
    _ = cs := by rw [List.nil_append]

/-- Evaluation of `move` on a well-formed description `"(r, c) -> t"`
built for in-range coordinates (board size at most 25) and a consistent
symbol: the parser recovers `r`, `c` and `t`, every check passes, and
the result is the one-cell refinement `_extend(t, r, c)`. -/
lemma moveL_moveStr (s : SudokuPuzzle) (r c : Nat) (t : Char)
    (hn25 : s.n ≤ 25) (hr : r < s.n) (hc : c < s.n)
    (ht : t ∈ s.possible_letters r c) :
    s.moveL (moveStr r c [t]) = some (s.extend t r c) := by
  have hr25 : r < 25 := Nat.lt_of_lt_of_le hr hn25
  have hc25 : c < 25 := Nat.lt_of_lt_of_le hc hn25
  have hfr := natStr_facts r hr25
  have hfc := natStr_facts c hc25
  have hdigR : ∀ ch ∈ natStr r, NUMBERS.contains ch = true :=
    fun ch hch => List.all_eq_true.mp hfr.1 ch hch
  have hdigC : ∀ ch ∈ natStr c, NUMBERS.contains ch = true :=
    fun ch hch => List.all_eq_true.mp hfc.1 ch hch
  have hupR : ∀ ch ∈ natStr r, CHARS.contains ch = false :=
    fun ch hch => digits_not_upper ch (List.elem_iff.mp (hdigR ch hch))
  have hupC : ∀ ch ∈ natStr c, CHARS.contains ch = false :=
    fun ch hch => digits_not_upper ch (List.elem_iff.mp (hdigC ch hch))
  have hposs : (s.possible_letters r c).contains t = true := List.elem_iff.mpr ht
  have htchars : t ∈ charsTake s.n := by
    have ht' := ht
    simp only [SudokuPuzzle.possible_letters] at ht'
    exact (List.mem_filter.mp ht').1
  have hcontains : (charsTake s.n).contains t = true := List.elem_iff.mpr htchars
  -- shapes of the description
  have hshape2 : moveStr r c [t] = moveStr r c [] ++ [t] := by
    simp [moveStr]
  have hshape : moveStr r c [t] =
      '(' :: (natStr r ++ ',' :: (' ' :: (natStr c ++ ')' ::
        [' ', '-', '>', ' ', t]))) := by
    simp [moveStr]
  have hlast : (moveStr r c [t]).getLastD ' ' = t := by
    rw [hshape2, List.getLastD_concat]
  have hlen : ¬ (moveStr r c [t]).length < 11 := by
    have l1 : 0 < (natStr r).length := List.length_pos.mpr hfr.2.1
    have l2 : 0 < (natStr c).length := List.length_pos.mpr hfc.2.1
    simp only [moveStr, List.length_cons, List.length_append, List.length_nil]
    omega
  have hdrop : (moveStr r c [t]).dropLast = moveStr r c [] := by
    rw [hshape2, List.dropLast_concat]
  have hmem_breakdown : ∀ ch ∈ moveStr r c [],
      ch = '(' ∨ ch ∈ natStr r ∨ ch ∈ natStr c ∨
        (ch = ',' ∨ ch = ' ' ∨ ch = ')' ∨ ch = '-' ∨ ch = '>') := by
    intro ch hch
    simp only [moveStr, List.mem_cons, List.mem_append, List.append_nil,
      List.mem_singleton, List.not_mem_nil, or_false] at hch
    tauto
  have hany : (moveStr r c []).any (fun ch => CHARS.contains ch) = false := by
    rw [List.any_eq_false]
    intro ch hch
    rw [Bool.not_eq_true]
    rcases hmem_breakdown ch hch with h | h | h | h
    · subst h
      decide
    · exact hupR ch h
    · exact hupC ch h
    · rcases h with rfl | rfl | rfl | rfl | rfl <;> decide
  have hpr : parseRowAux (moveStr r c [t]) 0 false [] =
      (natStr r, 1 + (natStr r).length) := by
    rw [hshape]
    exact parseRowAux_open (natStr r) hdigR ',' (by decide) _
  have hdropN : (moveStr r c [t]).drop (1 + (natStr r).length) =
      ',' :: (' ' :: (natStr c ++ ')' :: [' ', '-', '>', ' ', t])) := by
    rw [hshape, show 1 + (natStr r).length = (natStr r).length + 1 by omega,
      List.drop_succ_cons]
    exact List.drop_left _ _
  have hcolstart : ∀ prev,
      parseColAux (',' :: (' ' :: (natStr c ++ ')' :: [' ', '-', '>', ' ', t])))
        prev false [] = natStr c :=
    fun prev => parseColAux_start (natStr c) hdigC ')' (by decide) _ prev
  have hcond1 : ¬ ((natStr r, 1 + (natStr r).length).2 = 0 ∨
      (natStr r, 1 + (natStr r).length).1 = [] ∨
      s.n ≤ decValue (natStr r, 1 + (natStr r).length).1) := by
    push_neg
    refine ⟨by omega, hfr.2.1, ?_⟩
    rw [hfr.2.2]
    omega
  have hcond2 : ¬ (natStr c = [] ∨ s.n ≤ decValue (natStr c)) := by
    push_neg
    refine ⟨hfc.2.1, ?_⟩
    rw [hfc.2.2]
    omega
  rw [SudokuPuzzle.moveL, if_neg hlen, hlast, hcontains, Bool.not_true,
    if_neg Bool.false_ne_true, hdrop, hany, if_neg Bool.false_ne_true]
  simp only [hpr]
  rw [if_neg hcond1]
  simp only [hdropN, hcolstart]
  rw [if_neg (by simpa using hcond2)]
  simp only [hfr.2.2, hfc.2.2, hposs, Bool.not_true, if_neg Bool.false_ne_true]

/-- The extended state holds the chosen letter at the changed cell. -/
lemma extend_cell_same (s : SudokuPuzzle) (t : Char) (r c : Nat)
    (hr : r < s.grid.length) (hc : c < (s.rowList r).length) :
    (s.extend t r c).cell r c = some t := by
  show ((s.grid.set r ((s.rowList r).set c (some t))).getD r []).getD c none
    = some t
  rw [List.getD_eq_getElem?_getD (s.grid.set r ((s.rowList r).set c (some t))) r [],
    List.getElem?_set_self hr, Option.getD_some,
    List.getD_eq_getElem?_getD, List.getElem?_set_self hc, Option.getD_some]

/-- A range scan with `findSome?` returns the value at the first index
whose function value is not `none`. -/
lemma findSome?_range_first {β : Type} (f : Nat → Option β) (k j : Nat)
    (hj : j < k) (hnone : ∀ i < j, f i = none) (v : β) (hv : f j = some v) :
    (List.range k).findSome? f = some v := by
  have hk : k = j + (k - j) := by omega
  rw [hk, List.range_add, List.findSome?_append]
  have h1 : (List.range j).findSome? f = none := by
    rw [List.findSome?_eq_none_iff]
    intro x hx
    exact hnone x (List.mem_range.mp hx)
  rw [h1, Option.none_or]
  have hkj : k - j = (k - j - 1) + 1 := by omega
  rw [hkj, List.range_succ_eq_map, List.map_cons]
  have hj0 : f (j + 0) = some v := by
    rw [Nat.add_zero]
    exact hv
  rw [List.findSome?_cons, hj0]

/-- Claim C6: when `(r, c)` is the first blank cell of a well-formed
state of size at most 25 and `t` is consistent there, `move` on the
description `"(r, c) -> t"` returns exactly the one-cell refinement
`_extend(t, r, c)`, which is also the corresponding element of
`extensions`. -/
theorem c6_move_matches_extensions (s : SudokuPuzzle) (hWF : WF s)
    (hn25 : s.n ≤ 25) (r c : Nat) (t : Char)
    (hfb : s.firstBlank = some (r, c)) (ht : t ∈ s.possible_letters r c) :
    s.move (String.mk (moveStr r c [t])) = some (s.extend t r c) ∧
      s.extend t r c ∈ s.extensions := by
  obtain ⟨hr, hc, _, _, _⟩ := firstBlank_spec s r c hfb
  have hlen_r : (s.rowList r).length = s.n := by
    rw [rowList_eq_getElem s r hr]
    exact hWF _ (List.getElem_mem hr)
  have hcn : c < s.n := by
    rw [← hlen_r]
    exact hc
  constructor
  · show s.moveL (moveStr r c [t]) = some (s.extend t r c)
    exact moveL_moveStr s r c t hn25 hr hcn ht
  · rw [SudokuPuzzle.extensions, hfb]
    exact List.mem_map_of_mem _ ht

/-- Witness for claim C6 at the doctest grid, first blank (2,2),
symbol 'D'. -/
theorem c6_move_matches_extensions_witness :
    w6.move (String.mk (moveStr 2 2 ['D'])) = some (w6.extend 'D' 2 2) ∧
      w6.extend 'D' 2 2 ∈ w6.extensions :=
  c6_move_matches_extensions w6 (by decide) (by decide) 2 2 'D' (by decide)
    (by decide)

/-- Claim C7: diff inverts extend — when `(r, c)` is the first blank
cell of a well-formed state and `t` is consistent there,
`puzzle_to_hint` applied to the state and its refinement
`_extend(t, r, c)` returns exactly the move string `"(r, c) -> t"`. -/
theorem c7_hint_inverts_extend (s : SudokuPuzzle) (hWF : WF s) (r c : Nat)
    (t : Char) (hfb : s.firstBlank = some (r, c))
    (ht : t ∈ s.possible_letters r c) :
    s.puzzle_to_hint (s.extend t r c) = some (moveStr r c [t]) := by
  obtain ⟨hr, hc, hblank, hrows, hcols⟩ := firstBlank_spec s r c hfb
  have htchars : t ∈ charsTake s.n := by
    have ht' := ht
    simp only [SudokuPuzzle.possible_letters] at ht'
    exact (List.mem_filter.mp ht').1
  have hpcell : (s.extend t r c).cell r c = some t := extend_cell_same s t r c hr hc
  have hcn : c < s.grid.length := by
    have hlen_r : (s.rowList r).length = s.n := by
      rw [rowList_eq_getElem s r hr]
      exact hWF _ (List.getElem_mem hr)
    rw [hlen_r] at hc
    exact hc
  rw [SudokuPuzzle.puzzle_to_hint]
  refine findSome?_range_first _ s.grid.length r hr ?_ _ ?_
  · intro x hx
    rw [List.findSome?_eq_none_iff]
    intro y hy
    have hy' : y < s.grid.length := List.mem_range.mp hy
    have hxlen : x < s.grid.length := Nat.lt_trans hx hr
    have hcell_ne : s.cell x y ≠ none := by
      have hlen_x : (s.rowList x).length = s.n := by
        rw [rowList_eq_getElem s x hxlen]
        exact hWF _ (List.getElem_mem hxlen)
      have hylen : y < (s.rowList x).length := by
        rw [hlen_x]
        exact hy'
      intro hno
      refine hrows x hx ?_
      have hgd : (s.rowList x).getD y none = none := hno
      rw [List.getD_eq_getElem?_getD, List.getElem?_eq_getElem hylen,
        Option.getD_some] at hgd
      rw [← hgd]
      exact List.getElem_mem _
    have hbeq : (s.cell x y == none) = false := beq_eq_false_iff_ne.mpr hcell_ne
    rw [hbeq, Bool.false_and, if_neg Bool.false_ne_true]
  · refine findSome?_range_first _ s.grid.length c hcn ?_ _ ?_
    · intro y hy
      have hbeq : (s.cell r y == none) = false :=
        beq_eq_false_iff_ne.mpr (hcols y hy)
      rw [hbeq, Bool.false_and, if_neg Bool.false_ne_true]
    · have h1 : (s.cell r c == none) = true := by
        rw [hblank]
        rfl
      have h2 : pyMem ((s.extend t r c).cell r c) (charsTake s.n) = true := by
        rw [hpcell]
        exact List.elem_iff.mpr htchars
      rw [h1, h2, Bool.and_self, if_pos rfl, hpcell]
      rfl

/-- Witness for claim C7 at the doctest grid, first blank (2,2),
symbol 'D'. -/
theorem c7_hint_inverts_extend_witness :
    w7.puzzle_to_hint (w7.extend 'D' 2 2) = some (moveStr 2 2 ['D']) :=
  c7_hint_inverts_extend w7 (by decide) 2 2 'D' (by decide) (by decide)

/-- Without an opening parenthesis the row loop never raises its flag,
so it runs off the end with `row_end` still 0. -/
lemma parseRowAux_no_paren (l : List Char) (hl : '(' ∉ l) :
    ∀ x row, parseRowAux l x false row = (row, 0) := by
  induction l with
  | nil =>
    intro x row
    rfl
  | cons ch rest ih =>
    intro x row
    have hch : ch ≠ '(' := fun h => hl (h ▸ List.mem_cons_self ch rest)
    have hbeq : (ch == '(') = false := beq_eq_false_iff_ne.mpr hch
    calc parseRowAux (ch :: rest) x false row
        = parseRowAux rest (x + 1) (ch == '(') row := rfl
      _ = parseRowAux rest (x + 1) false row := by rw [hbeq]
      _ = (row, 0) := ih (fun h => hl (List.mem_cons_of_mem ch h)) (x + 1) row

/-- Where every check of `move` leads: either the move is rejected, or
every check passed — the description is long enough, its final symbol is
among the first `n` letters, no uppercase letter precedes it, the row
loop broke after a nonempty digit run naming a row below `n`, the column
loop extracted a nonempty digit run naming a column below `n`, the
symbol is consistent at the named cell — and the result is exactly the
one-cell refinement at the coordinates the description names. -/
lemma moveL_characterization (s : SudokuPuzzle) (mv : List Char) :
    s.moveL mv = none ∨
      (¬ mv.length < 11 ∧
        (charsTake s.n).contains (mv.getLastD ' ') = true ∧
        (mv.dropLast.any fun ch => CHARS.contains ch) = false ∧
        (rowParse mv).2 ≠ 0 ∧ (rowParse mv).1 ≠ [] ∧
        decValue (rowParse mv).1 < s.n ∧
        colParse mv ≠ [] ∧ decValue (colParse mv) < s.n ∧
        mv.getLastD ' ' ∈ s.possible_letters (decValue (rowParse mv).1)
          (decValue (colParse mv)) ∧
        s.moveL mv = some (s.extend (mv.getLastD ' ')
          (decValue (rowParse mv).1) (decValue (colParse mv)))) := by
  simp only [SudokuPuzzle.moveL]
  have hrw : parseRowAux mv 0 false [] = rowParse mv := rfl
  rw [hrw]
  by_cases h1 : mv.length < 11
  · rw [if_pos h1]
    exact Or.inl rfl
  rw [if_neg h1]
  cases h2 : (charsTake s.n).contains (mv.getLastD ' ') with
  | false =>
    rw [Bool.not_false, if_pos rfl]
    exact Or.inl rfl
  | true =>
    rw [Bool.not_true, if_neg Bool.false_ne_true]
    cases h3 : mv.dropLast.any fun ch => CHARS.contains ch with
    | true =>
      rw [if_pos rfl]
      exact Or.inl rfl
    | false =>
      rw [if_neg Bool.false_ne_true]
      by_cases h4 : (rowParse mv).2 = 0 ∨ (rowParse mv).1 = [] ∨
          s.n ≤ decValue (rowParse mv).1
      · rw [if_pos h4]
        exact Or.inl rfl
      rw [if_neg h4]
      have hcw : parseColAux (mv.drop (rowParse mv).2)
          (mv.getD ((rowParse mv).2 - 1) ' ') false [] = colParse mv := rfl
      rw [hcw]
      by_cases h5 : colParse mv = [] ∨ s.n ≤ decValue (colParse mv)
      · rw [if_pos h5]
        exact Or.inl rfl
      rw [if_neg h5]
      cases h6 : (s.possible_letters (decValue (rowParse mv).1)
          (decValue (colParse mv))).contains (mv.getLastD ' ') with
      | false =>
        rw [Bool.not_false, if_pos rfl]
        exact Or.inl rfl
      | true =>
        rw [Bool.not_true, if_neg Bool.false_ne_true]
        push_neg at h4 h5
        exact Or.inr ⟨h1, rfl, rfl, h4.1, h4.2.1, h4.2.2, h5.1, h5.2,
          List.elem_iff.mp h6, rfl⟩

/-- Claim C8: `move` rejects every listed deviation from the
`"(R, C) -> S"` grammar — a description that is too short
(`"not a move"` included), a final symbol outside the first `n` letters,
a missing opening parenthesis, non-digit content where digits are
expected (an empty row digit run, a row run not terminated by a
non-digit, or an empty column digit run), and a named row or column
outside `[0, n)` — and every success is exactly one `_extend` at the
cell the description names, with the consistent final symbol: there is
no partially-updated result (the embedding is functional, matching the
source, whose `move` never writes to `self._grid`). -/
theorem c8_move_rejects_malformed (s : SudokuPuzzle) :
    (∀ mv : List Char, mv.length < 11 → s.moveL mv = none) ∧
      (∀ mv : List Char, (charsTake s.n).contains (mv.getLastD ' ') = false →
        s.moveL mv = none) ∧
      (∀ mv : List Char, '(' ∉ mv → s.moveL mv = none) ∧
      (∀ mv : List Char, (rowParse mv).1 = [] ∨ (rowParse mv).2 = 0 →
        s.moveL mv = none) ∧
      (∀ mv : List Char, colParse mv = [] → s.moveL mv = none) ∧
      (∀ mv : List Char, s.n ≤ decValue (rowParse mv).1 → s.moveL mv = none) ∧
      (∀ mv : List Char, s.n ≤ decValue (colParse mv) → s.moveL mv = none) ∧
      (∀ mv p, s.moveL mv = some p →
        decValue (rowParse mv).1 < s.n ∧ decValue (colParse mv) < s.n ∧
        mv.getLastD ' ' ∈ s.possible_letters (decValue (rowParse mv).1)
          (decValue (colParse mv)) ∧
        p = s.extend (mv.getLastD ' ') (decValue (rowParse mv).1)
          (decValue (colParse mv))) ∧
      s.move "not a move" = none := by
  refine ⟨?_, ?_, ?_, ?_, ?_, ?_, ?_, ?_, ?_⟩
  · intro mv h
    rcases moveL_characterization s mv with hn | hs
    · exact hn
    · exact absurd h hs.1
  · intro mv h
    rcases moveL_characterization s mv with hn | hs
    · exact hn
    · rw [h] at hs
      exact absurd hs.2.1 Bool.false_ne_true
  · intro mv h
    rcases moveL_characterization s mv with hn | hs
    · exact hn
    · have hzero : rowParse mv = ([], 0) := parseRowAux_no_paren mv h 0 []
      refine absurd ?_ hs.2.2.2.1
      rw [hzero]
  · intro mv h
    rcases moveL_characterization s mv with hn | hs
    · exact hn
    · rcases h with h | h
      · exact absurd h hs.2.2.2.2.1
      · exact absurd h hs.2.2.2.1
  · intro mv h
    rcases moveL_characterization s mv with hn | hs
    · exact hn
    · exact absurd h hs.2.2.2.2.2.2.1
  · intro mv h
    rcases moveL_characterization s mv with hn | hs
    · exact hn
    · exact absurd h (Nat.not_le_of_lt hs.2.2.2.2.2.1)
  · intro mv h
    rcases moveL_characterization s mv with hn | hs
    · exact hn
    · exact absurd h (Nat.not_le_of_lt hs.2.2.2.2.2.2.2.1)
  · intro mv p hp
    rcases moveL_characterization s mv with hn | hs
    · rw [hn] at hp
      exact absurd hp (by simp)
    · refine ⟨hs.2.2.2.2.2.1, hs.2.2.2.2.2.2.2.1, hs.2.2.2.2.2.2.2.2.1, ?_⟩
      have hsome := hs.2.2.2.2.2.2.2.2.2
      rw [hp] at hsome
      exact Option.some_inj.mp hsome
  · rfl

/-- Witness for claim C8: the description "(9, 0) -> A" names row 9 on a
4-by-4 board and is rejected. -/
theorem c8_move_rejects_malformed_witness :
    w8.moveL "(9, 0) -> A".toList = none :=
  (c8_move_rejects_malformed w8).2.2.2.2.2.1 "(9, 0) -> A".toList (by decide)

/-- Claim C10 counterexample: with `p = s` no cell is blank in `s` and a
first-n symbol in `p`, yet `puzzle_to_hint` does not return `None`: it
returns the junk hint `"(2, 2) -> "`.  Python's substring test
`'' in CHARS[:n]` is true, so a cell blank in both states satisfies the
search condition. -/
theorem c10_counterexample :
    (∀ x < s10.n, ∀ y < s10.n,
      ¬ (s10.cell x y = none ∧ ∃ ch ∈ charsTake s10.n, s10.cell x y = some ch))
      ∧ s10.puzzle_to_hint s10 = some (moveStr 2 2 []) := by
  decide

/-- Bool conjunction as a propositional iff. -/
lemma and_eq_true_iff {a b : Bool} : (a && b) = true ↔ a = true ∧ b = true := by
  simp

/-- Claim C10 as amended: `puzzle_to_hint s p` returns `None` iff no cell
is blank in `s` with a `p`-cell that is blank or a first-n symbol (the
Python substring test counts the empty cell string as a member of
`CHARS[:n]`); when such cells exist it reports the first one in
row-major order, appending `p`'s cell content — empty for a blank. -/
theorem c10_hint_characterization (s p : SudokuPuzzle) :
    (s.puzzle_to_hint p = none ↔
      ∀ x < s.grid.length, ∀ y < s.grid.length,
        ¬ (s.cell x y = none ∧ pyMem (p.cell x y) (charsTake s.n) = true)) ∧
      (∀ x y, x < s.grid.length → y < s.grid.length →
        s.cell x y = none → pyMem (p.cell x y) (charsTake s.n) = true →
        (∀ x' < s.grid.length, ∀ y' < s.grid.length,
          (x' < x ∨ (x' = x ∧ y' < y)) →
          ¬ (s.cell x' y' = none ∧ pyMem (p.cell x' y') (charsTake s.n) = true)) →
        s.puzzle_to_hint p = some (moveStr x y (cellChars (p.cell x y)))) := by
  constructor
  · rw [SudokuPuzzle.puzzle_to_hint, List.findSome?_eq_none_iff]
    constructor
    · intro h x hx y hy hcontra
      have hx' := h x (List.mem_range.mpr hx)
      rw [List.findSome?_eq_none_iff] at hx'
      have hy' := hx' y (List.mem_range.mpr hy)
      rw [if_pos (by
        rw [Bool.and_eq_true]
        exact ⟨beq_iff_eq.mpr hcontra.1, hcontra.2⟩)] at hy'
      exact absurd hy' (by simp)
    · intro h x hx
      rw [List.findSome?_eq_none_iff]
      intro y hy
      rw [if_neg fun hc => h x (List.mem_range.mp hx) y (List.mem_range.mp hy)
        ⟨beq_iff_eq.mp (and_eq_true_iff.mp hc).1, (and_eq_true_iff.mp hc).2⟩]
  · intro x y hx hy hblank hpy hfirst
    rw [SudokuPuzzle.puzzle_to_hint]
    refine findSome?_range_first _ s.grid.length x hx ?_ _ ?_
    · intro x' hx'
      rw [List.findSome?_eq_none_iff]
      intro y' hy'
      rw [if_neg fun hc => hfirst x' (Nat.lt_trans hx' hx)
        y' (List.mem_range.mp hy') (Or.inl hx')
        ⟨beq_iff_eq.mp (and_eq_true_iff.mp hc).1, (and_eq_true_iff.mp hc).2⟩]
    · refine findSome?_range_first _ s.grid.length y hy ?_ _ ?_
      · intro y' hy'
        rw [if_neg fun hc => hfirst x hx y' (Nat.lt_trans hy' hy)
          (Or.inr ⟨rfl, hy'⟩)
          ⟨beq_iff_eq.mp (and_eq_true_iff.mp hc).1, (and_eq_true_iff.mp hc).2⟩]
      · rw [if_pos (by
          rw [Bool.and_eq_true]
          exact ⟨beq_iff_eq.mpr hblank, hpy⟩)]

/-- Witness for the amended claim C10 at the first blank cell (2,2),
`p = s`: the junk hint with empty symbol suffix. -/
theorem c10_hint_characterization_witness :
    w10.puzzle_to_hint w10 = some (moveStr 2 2 (cellChars (w10.cell 2 2))) :=
  (c10_hint_characterization w10 w10).2 2 2 (by decide) (by decide) (by decide)
    (by decide) (by decide)

/-- Claim C5 (evaluation at the failing input): a successful `move` can
change a cell that was not blank, so not every state produced by a
successful move differs from the receiver in a previously-blank cell:
with (1,1) already holding 'B', `move "(1, 1) -> A"` succeeds and the
changed cell (1,1) was filled. -/
theorem c5_move_changes_filled_cell :
    s5c5.cell 1 1 ≠ none ∧
      s5c5.move "(1, 1) -> A" =
        some ⟨[[bl,bl,bl,bl],[bl,cA,bl,bl],[bl,bl,bl,bl],[bl,bl,bl,bl]]⟩ := by
  decide

end Sudoku

